import Mathlib

/-!
Verification of the flamego/cors middleware (cors.go).

The development embeds the package's two functions, `prepareOptions` and the
request evaluator returned by `CORS`, as pure Lean functions.  Machine
integers do not occur (the only numeric field, `MaxAge`, is a Go
`time.Duration`, modelled as an unbounded `Int` of nanoseconds, faithful for
every duration because Go durations never overflow in this code path).  The
external dependency `net/url` (`Parse`, `unescape`/`escape`, `URL.String`)
is modelled explicitly; the section comment on that model states its one
representation boundary (Lean strings are valid UTF-8, Go strings are raw
bytes).
-/

namespace FlamegoCors

/-! ### Go standard-library string primitives -/

/-- Go `strings.HasSuffix(s, suffix)`. -/
def goHasSuffix (s suffix : String) : Bool :=
  suffix.data.isSuffixOf s.data

/-- Go `strings.Join(elems, sep)`. -/
def goJoin : List String → String → String
  | [], _ => ""
  | [s], _ => s
  | s :: rest, sep => s ++ sep ++ goJoin (rest) sep

/-- Splitting a character list at every occurrence of `sep`, as Go
`strings.Split` does for a one-character separator (the empty input yields
one empty field). -/
def splitCh (sep : Char) : List Char → List (List Char)
  | [] => [[]]
  | c :: cs =>
    match splitCh sep cs with
    | [] => [[]]
    | g :: gs => if c = sep then [] :: g :: gs else (c :: g) :: gs

/-- Go `strings.Split(s, ",")`. -/
def goSplitComma (s : String) : List String :=
  (splitCh ',' s.data).map String.mk

/-- Go `strconv.FormatBool`. -/
def formatBool (b : Bool) : String :=
  if b then "true" else "false"

/-- One second as a Go `time.Duration` (nanoseconds). -/
def second : Int := 1000000000

/-- Go `strconv.FormatFloat(d.Seconds(), 'f', 0, 64)` for a duration of `ns`
nanoseconds: the number of seconds rounded to the nearest integer, ties to
even, rendered in decimal.  Faithful whenever `ns` is exactly representable
in a float64 (|ns| < 2^53), which covers every realistic max-age. -/
def formatSecondsF0 (ns : Int) : String :=
  let q := Int.ediv ns second
  let r := Int.emod ns second
  let rounded :=
    if 2 * r < second then q
    else if 2 * r > second then q + 1
    else if q % 2 = 0 then q else q + 1
  toString rounded

def lowerHexDigit (n : Nat) : Char :=
  if n < 10 then Char.ofNat ('0'.toNat + n) else Char.ofNat ('a'.toNat + n - 10)

def upperHexDigit (n : Nat) : Char :=
  if n < 10 then Char.ofNat ('0'.toNat + n) else Char.ofNat ('A'.toNat + n - 10)

/-- Go `strconv.Quote` / the `%q` verb on one character: backslash and
quote escapes, the single-letter control escapes, `\xNN` (lowercase hex)
for the remaining ASCII control characters, and the character itself
otherwise.  Faithful for printable characters and ASCII controls; Go would
additionally `\u`-escape the rare non-printable non-ASCII code points. -/
def goQuoteChar (c : Char) : List Char :=
  if c = '\\' then ['\\', '\\']
  else if c = '\"' then ['\\', '\"']
  else if c = '\x07' then ['\\', 'a']
  else if c = '\x08' then ['\\', 'b']
  else if c = '\x0c' then ['\\', 'f']
  else if c = '\n' then ['\\', 'n']
  else if c = '\r' then ['\\', 'r']
  else if c = '\t' then ['\\', 't']
  else if c = '\x0b' then ['\\', 'v']
  else if c.toNat < 32 ∨ c.toNat = 127 then
    ['\\', 'x', lowerHexDigit (c.toNat / 16), lowerHexDigit (c.toNat % 16)]
  else [c]

/-- Go `strconv.Quote` / the `%q` verb. -/
def goQuote (s : String) : String :=
  "\"" ++ String.mk (s.data.flatMap goQuoteChar) ++ "\""

/-! ### A model of `net/url.Parse` (external dependency)

The middleware calls `url.Parse` on the request's `Origin` header and then
reads `u.Host`, overwrites `u.Scheme`, and re-serialises with `u.String()`.
The model below follows Go's `net/url` code path for `Parse` and
`URL.String`: scheme splitting, the query cut with `ForceQuery`, opaque
rootless rests, authorities with userinfo and bracketed IPv6 hosts
(including RFC 6874 zones), percent unescaping with Go's per-mode
validation, path/fragment storage with their Raw* companions, and the
escaping `String()` applies on output.

One representation boundary remains: Go strings are byte strings, while
this embedding uses Lean strings (valid UTF-8).  A component whose
unescaped bytes are not valid UTF-8 (e.g. a host containing `%FF`) cannot
be represented; `urlParse` maps exactly those inputs to a distinguished
"outside the modelled string domain" error, whereas Go carries the raw
bytes along (such an origin never equals a valid-UTF-8 configured domain
entry, so the program rejects it too unless the `"!*"` sentinel is
configured). -/

def isCTL (c : Char) : Bool :=
  c.toNat < 32 || c.toNat == 127

def isSchemeAlpha (c : Char) : Bool :=
  ('a' ≤ c && c ≤ 'z') || ('A' ≤ c && c ≤ 'Z')

def isDigitCh (c : Char) : Bool :=
  '0' ≤ c && c ≤ '9'

def isAlphaNumCh (c : Char) : Bool :=
  isSchemeAlpha c || isDigitCh c

def isHexDigit (c : Char) : Bool :=
  isDigitCh c || ('a' ≤ c && c ≤ 'f') || ('A' ≤ c && c ≤ 'F')

/-- Go `unhex`. -/
def unhex (c : Char) : Nat :=
  if isDigitCh c then c.toNat - '0'.toNat
  else if 'a' ≤ c && c ≤ 'f' then c.toNat - 'a'.toNat + 10
  else if 'A' ≤ c && c ≤ 'F' then c.toNat - 'A'.toNat + 10
  else 0

/-- The UTF-8 bytes of one character (Go strings are byte strings; a Lean
string's characters stand for these bytes). -/
def utf8Bytes (c : Char) : List Nat :=
  let n := c.toNat
  if n < 128 then [n]
  else if n < 2048 then [192 + n / 64, 128 + n % 64]
  else if n < 65536 then [224 + n / 4096, 128 + n / 64 % 64, 128 + n % 64]
  else [240 + n / 262144, 128 + n / 4096 % 64, 128 + n / 64 % 64, 128 + n % 64]

/-- Strict UTF-8 decoding (rejecting truncated, overlong, surrogate and
out-of-range forms): the inverse of `utf8Bytes` on each character.
`none` means the byte string is not the encoding of any Lean string, i.e.
it leaves the domain this embedding can represent. -/
def utf8Decode : List Nat → Option (List Char)
  | [] => some []
  | b :: bs =>
    if b < 128 then
      (utf8Decode bs).map (fun cs => Char.ofNat b :: cs)
    else if 194 ≤ b ∧ b ≤ 223 then
      match bs with
      | b2 :: bs2 =>
        if 128 ≤ b2 ∧ b2 < 192 then
          (utf8Decode bs2).map (fun cs => Char.ofNat ((b - 192) * 64 + (b2 - 128)) :: cs)
        else none
      | [] => none
    else if 224 ≤ b ∧ b ≤ 239 then
      match bs with
      | b2 :: b3 :: bs3 =>
        if (128 ≤ b2 ∧ b2 < 192) ∧ (128 ≤ b3 ∧ b3 < 192) ∧
            (b ≠ 224 ∨ 160 ≤ b2) ∧ (b ≠ 237 ∨ b2 < 160) then
          (utf8Decode bs3).map (fun cs =>
            Char.ofNat ((b - 224) * 4096 + (b2 - 128) * 64 + (b3 - 128)) :: cs)
        else none
      | _ => none
    else if 240 ≤ b ∧ b ≤ 244 then
      match bs with
      | b2 :: b3 :: b4 :: bs4 =>
        if (128 ≤ b2 ∧ b2 < 192) ∧ (128 ≤ b3 ∧ b3 < 192) ∧ (128 ≤ b4 ∧ b4 < 192) ∧
            (b ≠ 240 ∨ 144 ≤ b2) ∧ (b ≠ 244 ∨ b2 < 144) then
          (utf8Decode bs4).map (fun cs =>
            Char.ofNat ((b - 240) * 262144 + (b2 - 128) * 4096 + (b3 - 128) * 64 + (b4 - 128)) :: cs)
        else none
      | _ => none
    else none

/-- The `net/url` encoding modes reachable from `url.Parse` and
`URL.String` (encodeQueryComponent and encodePathSegment are not). -/
inductive Encoding where
  | host
  | zone
  | path
  | userPassword
  | fragment
deriving DecidableEq, Repr

/-- Go `shouldEscape(c, mode)` for an ASCII byte, at character level. -/
def shouldEscapeChar (c : Char) (mode : Encoding) : Bool :=
  if isAlphaNumCh c then false
  else if (mode = Encoding.host ∨ mode = Encoding.zone) ∧
      ['!', '$', '&', '\'', '(', ')', '*', '+', ',', ';', '=', ':', '[', ']',
        '<', '>', '\"'].contains c then false
  else if ['-', '_', '.', '~'].contains c then false
  else if ['$', '&', '+', ',', '/', ':', ';', '=', '?', '@'].contains c then
    match mode with
    | Encoding.path => c == '?'
    | Encoding.userPassword => c == '@' || c == '/' || c == '?' || c == ':'
    | Encoding.fragment => false
    | _ => true
  else if mode = Encoding.fragment ∧ ['!', '(', ')', '*'].contains c then false
  else true

/-- Go `shouldEscape` on a raw byte: every non-ASCII byte is escaped. -/
def shouldEscapeByte (b : Nat) (mode : Encoding) : Bool :=
  if b < 128 then shouldEscapeChar (Char.ofNat b) mode else true

def pctEncodeByte (b : Nat) : List Char :=
  ['%', upperHexDigit (b / 16), upperHexDigit (b % 16)]

/-- Go `escape(s, mode)`: percent-encode every byte of every character
that `shouldEscape` flags (the '+'-for-space rule belongs to
encodeQueryComponent only, which is unreachable here). -/
def escapeGo (s : String) (mode : Encoding) : String :=
  String.mk (s.data.flatMap (fun c =>
    if c.toNat < 128 then
      if shouldEscapeChar c mode then pctEncodeByte c.toNat else [c]
    else (utf8Bytes c).flatMap pctEncodeByte))

/-- Go `validEncoded(s, mode)`. -/
def validEncodedChar (c : Char) (mode : Encoding) : Bool :=
  if ['!', '$', '&', '\'', '(', ')', '*', '+', ',', ';', '=', ':', '@',
      '[', ']', '%'].contains c then true
  else if c.toNat < 128 then !shouldEscapeChar c mode
  else false

def validEncoded (s : String) (mode : Encoding) : Bool :=
  s.data.all (fun c => validEncodedChar c mode)

/-- One pass of Go `unescape(s, mode)` at character level.  Escape
sequences contribute raw bytes, buffered in `buf` and decoded as UTF-8
whenever an unescaped character or the end of input is reached; a raw
character always starts a fresh UTF-8 sequence, so the byte string Go
builds is valid UTF-8 exactly when every buffered run decodes, and then
the results agree.  Go runs the same validations in a first counting pass,
erroring at the first offender just as this single pass does. -/
def unescapeLoop (mode : Encoding) : List Char → List Nat → List Char → Except String (List Char)
  | [], buf, acc =>
    match utf8Decode buf with
    | some cs => Except.ok (acc ++ cs)
    | none => Except.error "URL component is not UTF-8 after unescaping (outside the modelled string domain)"
  | c :: rest, buf, acc =>
    if c = '%' then
      match rest with
      | h1 :: h2 :: rest2 =>
        if ¬ (isHexDigit h1 ∧ isHexDigit h2) then
          Except.error ("invalid URL escape " ++ goQuote (String.mk ['%', h1, h2]))
        else if mode = Encoding.host ∧ unhex h1 < 8 ∧ ¬ (h1 = '2' ∧ h2 = '5') then
          Except.error ("invalid character " ++ goQuote (String.mk ['%', h1, h2]) ++ " in host name")
        else if mode = Encoding.zone ∧ ¬ (h1 = '2' ∧ h2 = '5') ∧
            unhex h1 * 16 + unhex h2 ≠ 32 ∧
            shouldEscapeByte (unhex h1 * 16 + unhex h2) Encoding.host then
          Except.error ("invalid character " ++ goQuote (String.mk ['%', h1, h2]) ++ " in host name")
        else unescapeLoop mode rest2 (buf ++ [unhex h1 * 16 + unhex h2]) acc
      | _ =>
        Except.error ("invalid URL escape " ++ goQuote (String.mk ('%' :: rest)))
    else if c = '+' then
      match utf8Decode buf with
      | some cs => unescapeLoop mode rest [] (acc ++ cs ++ ['+'])
      | none => Except.error "URL component is not UTF-8 after unescaping (outside the modelled string domain)"
    else if (mode = Encoding.host ∨ mode = Encoding.zone) ∧ c.toNat < 128 ∧ shouldEscapeChar c mode then
      Except.error ("invalid character " ++ goQuote (String.mk [c]) ++ " in host name")
    else
      match utf8Decode buf with
      | some cs => unescapeLoop mode rest [] (acc ++ cs ++ [c])
      | none => Except.error "URL component is not UTF-8 after unescaping (outside the modelled string domain)"

/-- Go `unescape(s, mode)`. -/
def unescapeGo (s : String) (mode : Encoding) : Except String String :=
  (unescapeLoop mode s.data [] []).map String.mk

/-- Go `getScheme`: split a leading `scheme:` off the raw URL.  Returns
`none` when no valid scheme prefix exists (the whole string is the rest). -/
def getSchemeGo : List Char → Nat → List Char → Except String (Option (String × List Char))
  | [], _, _ => Except.ok none
  | c :: cs, i, acc =>
    if isSchemeAlpha c then getSchemeGo cs (i + 1) (acc ++ [c])
    else if isDigitCh c || c == '+' || c == '-' || c == '.' then
      if i == 0 then Except.ok none else getSchemeGo cs (i + 1) (acc ++ [c])
    else if c == ':' then
      if i == 0 then Except.error "missing protocol scheme"
      else Except.ok (some (String.mk acc, cs))
    else Except.ok none

def asciiLowerChar (c : Char) : Char :=
  if 'A' ≤ c && c ≤ 'Z' then Char.ofNat (c.toNat + 32) else c

/-- Go `strings.ToLower`, restricted to the ASCII letters that a valid
scheme can contain. -/
def asciiLower (s : String) : String :=
  String.mk (s.data.map asciiLowerChar)

/-- Go `validOptionalPort`: empty, or `:` followed by digits only. -/
def validOptionalPort : List Char → Bool
  | [] => true
  | c :: rest => c == ':' && rest.all isDigitCh

/-- The suffix of `l` starting at its last colon, when a colon occurs. -/
def lastColonSuffix (l : List Char) : Option (List Char) :=
  if l.contains ':' then
    some (':' :: (l.reverse.takeWhile (fun c => c != ':')).reverse)
  else none

/-- Split `l` at the LAST occurrence of `c` (Go `strings.LastIndex`):
`(before, after)`, both excluding the occurrence itself. -/
def lastIdxSplit (c : Char) (l : List Char) : Option (List Char × List Char) :=
  if l.contains c then
    let after := (l.reverse.takeWhile (fun x => x != c)).reverse
    some (l.take (l.length - after.length - 1), after)
  else none

/-- Index of the first occurrence of `pat` in `l` (Go `strings.Index`). -/
def firstSubIdx (pat : List Char) : List Char → Option Nat
  | [] => if pat.isEmpty then some 0 else none
  | c :: rest =>
    if pat.isPrefixOf (c :: rest) then some 0
    else (firstSubIdx pat rest).map (fun n => n + 1)

/-- Go `url.Userinfo`: a username with an optional password. -/
structure UserInfo where
  name : String
  password : Option String
deriving DecidableEq, Repr

/-- The fields of Go's `url.URL`, in source order (`Opaque` as `opq`). -/
structure URL where
  scheme : String
  opq : String
  user : Option UserInfo
  host : String
  path : String
  rawPath : String
  omitHost : Bool
  forceQuery : Bool
  rawQuery : String
  fragment : String
  rawFragment : String
deriving DecidableEq, Repr

/-- Go `parseHost`: bracketed (IPv6) hosts with the optional RFC 6874
zone, the optional-port check after the last colon otherwise, then host
unescaping and validation. -/
def parseHost (host : List Char) : Except String String :=
  if host.head? = some '[' then
    match lastIdxSplit ']' host with
    | none => Except.error "missing ']' in host"
    | some (beforeBr, colonPort) =>
      if ¬ validOptionalPort colonPort then
        Except.error ("invalid port " ++ goQuote (String.mk colonPort) ++ " after host")
      else
        match firstSubIdx ['%', '2', '5'] beforeBr with
        | some z =>
          match unescapeGo (String.mk (beforeBr.take z)) Encoding.host with
          | Except.error e => Except.error e
          | Except.ok host1 =>
            match unescapeGo (String.mk (beforeBr.drop z)) Encoding.zone with
            | Except.error e => Except.error e
            | Except.ok host2 =>
              match unescapeGo (String.mk (']' :: colonPort)) Encoding.host with
              | Except.error e => Except.error e
              | Except.ok host3 => Except.ok (host1 ++ host2 ++ host3)
        | none => unescapeGo (String.mk host) Encoding.host
  else
    match lastColonSuffix host with
    | some colonPort =>
      if ¬ validOptionalPort colonPort then
        Except.error ("invalid port " ++ goQuote (String.mk colonPort) ++ " after host")
      else unescapeGo (String.mk host) Encoding.host
    | none => unescapeGo (String.mk host) Encoding.host

/-- Go `validUserinfo` (rune-wise; any non-ASCII rune fails, since
alphanumeric ranges and the switch cover ASCII only). -/
def validUserinfoChar (c : Char) : Bool :=
  isAlphaNumCh c ||
    ['-', '.', '_', ':', '~', '!', '$', '&', '\'', '(', ')', '*', '+', ',',
      ';', '=', '%', '@'].contains c

/-- Go `parseAuthority`: split at the last `@`, parse the host, then
validate and unescape the userinfo. -/
def parseAuthority (authority : List Char) : Except String (Option UserInfo × String) :=
  match lastIdxSplit '@' authority with
  | none => (parseHost authority).map (fun h => (none, h))
  | some (userinfo, hostPart) =>
    match parseHost hostPart with
    | Except.error e => Except.error e
    | Except.ok h =>
      if ¬ userinfo.all validUserinfoChar then
        Except.error "net/url: invalid userinfo"
      else if ¬ userinfo.contains ':' then
        match unescapeGo (String.mk userinfo) Encoding.userPassword with
        | Except.error e => Except.error e
        | Except.ok un => Except.ok (some ⟨un, none⟩, h)
      else
        match unescapeGo (String.mk (userinfo.takeWhile (fun x => x ≠ ':'))) Encoding.userPassword with
        | Except.error e => Except.error e
        | Except.ok un =>
          match unescapeGo (String.mk ((userinfo.dropWhile (fun x => x ≠ ':')).drop 1)) Encoding.userPassword with
          | Except.error e => Except.error e
          | Except.ok pw => Except.ok (some ⟨un, some pw⟩, h)

/-- Go `URL.setPath`: store the decoded path, and the original in
`RawPath` when re-escaping would not reproduce it. -/
def setPathGo (p : List Char) : Except String (String × String) :=
  match unescapeGo (String.mk p) Encoding.path with
  | Except.error e => Except.error e
  | Except.ok path =>
    Except.ok (path, if escapeGo path Encoding.path = String.mk p then "" else String.mk p)

/-- Go `URL.setFragment`. -/
def setFragmentGo (f : List Char) : Except String (String × String) :=
  match unescapeGo (String.mk f) Encoding.fragment with
  | Except.error e => Except.error e
  | Except.ok frag =>
    Except.ok (frag, if escapeGo frag Encoding.fragment = String.mk f then "" else String.mk f)

/-- Body of Go `parse` after the scheme has been split off (viaRequest is
false): the query cut (with the `ForceQuery` special case for a lone
trailing `?`), the opaque rootless return, the colon check on a relative
first segment, authority parsing after `//`, the `OmitHost` marker, then
the path. -/
def parseAfterScheme (scheme : String) (rest0 : List Char) : Except String URL :=
  let fq : Bool := (rest0.getLast? == some '?') && !(rest0.dropLast.contains '?')
  let rest := if fq then rest0.dropLast else rest0.takeWhile (fun c => c ≠ '?')
  let rawQuery := if fq then "" else String.mk ((rest0.dropWhile (fun c => c ≠ '?')).drop 1)
  if ¬ (['/'].isPrefixOf rest) ∧ scheme ≠ "" then
    Except.ok ⟨scheme, String.mk rest, none, "", "", "", false, fq, rawQuery, "", ""⟩
  else if ¬ (['/'].isPrefixOf rest) ∧ (rest.takeWhile (fun c => c ≠ '/')).contains ':' then
    Except.error "first path segment in URL cannot contain colon"
  else if (scheme ≠ "" ∨ ¬ (['/', '/', '/'].isPrefixOf rest)) ∧ (['/', '/'].isPrefixOf rest) then
    match parseAuthority ((rest.drop 2).takeWhile (fun c => c ≠ '/')) with
    | Except.error e => Except.error e
    | Except.ok (u, h) =>
      match setPathGo ((rest.drop 2).dropWhile (fun c => c ≠ '/')) with
      | Except.error e => Except.error e
      | Except.ok (p, rp) => Except.ok ⟨scheme, "", u, h, p, rp, false, fq, rawQuery, "", ""⟩
  else if scheme ≠ "" ∧ (['/'].isPrefixOf rest) then
    match setPathGo rest with
    | Except.error e => Except.error e
    | Except.ok (p, rp) => Except.ok ⟨scheme, "", none, "", p, rp, true, fq, rawQuery, "", ""⟩
  else
    match setPathGo rest with
    | Except.error e => Except.error e
    | Except.ok (p, rp) => Except.ok ⟨scheme, "", none, "", p, rp, false, fq, rawQuery, "", ""⟩

/-- Go `parse(rawURL, false)` on the part before any fragment:
control-character check, the `*` special case, scheme splitting and
lowercasing, then `parseAfterScheme`. -/
def urlParseInner (raw : String) : Except String URL :=
  if raw.data.any isCTL then
    Except.error "net/url: invalid control character in URL"
  else if raw = "*" then
    Except.ok ⟨"", "", none, "", "*", "", false, false, "", "", ""⟩
  else
    match getSchemeGo raw.data 0 [] with
    | Except.error e => Except.error e
    | Except.ok none => parseAfterScheme "" raw.data
    | Except.ok (some (sch, rest)) => parseAfterScheme (asciiLower sch) rest

/-- Go `url.Parse`: cut the fragment at the first `#`, run `parse` on the
part before it, set the fragment, and wrap any failure in a `*url.Error`
whose `Error()` reads `parse "<url>": <cause>` (parse failures quote the
pre-fragment part, fragment failures the whole input, as Go does). -/
def urlParse (raw : String) : Except String URL :=
  let u := String.mk (raw.data.takeWhile (fun c => c ≠ '#'))
  let frag := (raw.data.dropWhile (fun c => c ≠ '#')).drop 1
  match urlParseInner u with
  | Except.error e => Except.error ("parse " ++ goQuote u ++ ": " ++ e)
  | Except.ok url =>
    if frag.isEmpty then Except.ok url
    else
      match setFragmentGo frag with
      | Except.error e => Except.error ("parse " ++ goQuote raw ++ ": " ++ e)
      | Except.ok (f, rf) => Except.ok { url with fragment := f, rawFragment := rf }

/-- Go `Userinfo.String()`. -/
def userinfoString (ui : UserInfo) : String :=
  escapeGo ui.name Encoding.userPassword ++
    (match ui.password with
     | some pw => ":" ++ escapeGo pw Encoding.userPassword
     | none => "")

/-- The condition under which Go `URL.EscapedPath()` returns `RawPath`. -/
def rawPathOK (u : URL) : Bool :=
  u.rawPath != "" && validEncoded u.rawPath Encoding.path &&
    (match unescapeGo u.rawPath Encoding.path with
     | Except.ok p => p == u.path
     | Except.error _ => false)

/-- Go `URL.EscapedPath()`. -/
def escapedPath (u : URL) : String :=
  if rawPathOK u then u.rawPath else escapeGo u.path Encoding.path

/-- The condition under which Go `URL.EscapedFragment()` returns
`RawFragment`. -/
def rawFragmentOK (u : URL) : Bool :=
  u.rawFragment != "" && validEncoded u.rawFragment Encoding.fragment &&
    (match unescapeGo u.rawFragment Encoding.fragment with
     | Except.ok f => f == u.fragment
     | Except.error _ => false)

/-- Go `URL.EscapedFragment()`. -/
def escapedFragment (u : URL) : String :=
  if rawFragmentOK u then u.rawFragment else escapeGo u.fragment Encoding.fragment

/-- Whether the first path segment (up to a `/`) contains a colon, used by
`URL.String()` to decide on a `./` prefix. -/
def segHasColon (p : String) : Bool :=
  (p.data.takeWhile (fun c => c ≠ '/')).contains ':'

/-- Go `URL.String()`. -/
def urlString (u : URL) : String :=
  let b0 := if u.scheme ≠ "" then u.scheme ++ ":" else ""
  let b1 :=
    if u.opq ≠ "" then b0 ++ u.opq
    else
      let b2 :=
        if u.scheme ≠ "" ∨ u.host ≠ "" ∨ u.user.isSome then
          if u.omitHost ∧ u.host = "" ∧ u.user.isNone then b0
          else
            let ba := if u.host ≠ "" ∨ u.path ≠ "" ∨ u.user.isSome then b0 ++ "//" else b0
            let bb :=
              match u.user with
              | some ui => ba ++ userinfoString ui ++ "@"
              | none => ba
            if u.host ≠ "" then bb ++ escapeGo u.host Encoding.host else bb
        else b0
      let p := escapedPath u
      let b3 := if p ≠ "" ∧ p.data.head? ≠ some '/' ∧ u.host ≠ "" then b2 ++ "/" else b2
      let b4 := if b3 = "" ∧ segHasColon p then b3 ++ "./" else b3
      b4 ++ p
  let b5 := if u.forceQuery ∨ u.rawQuery ≠ "" then b1 ++ "?" ++ u.rawQuery else b1
  if u.fragment ≠ "" then b5 ++ "#" ++ escapedFragment u else b5

/-! ### The middleware (cors.go) -/

/-- `cors.Options` (cors.go lines 291-314).  `maxAge` is the Go
`time.Duration` in nanoseconds. -/
structure Options where
  scheme : String
  allowDomain : List String
  allowSubdomain : Bool
  methods : List String
  maxAge : Int
  allowCredentials : Bool
deriving DecidableEq, Repr

/-- The Go zero value of `Options`. -/
def defaultOptions : Options :=
  ⟨"", [], false, [], 0, false⟩

/-- `prepareOptions` (cors.go lines 316-340).  `opt.MaxAge.Seconds() <= 0`
holds exactly when the nanosecond count is nonpositive, since float division
by 1e9 preserves sign and zero. -/
def prepareOptions (options : List Options) : Options :=
  let o0 := options.headD defaultOptions
  let o1 := if o0.scheme = "" then { o0 with scheme := "http" } else o0
  let o2 := if o1.allowDomain = [] then { o1 with allowDomain := ["*"] } else o1
  let o3 := if o2.methods = [] then { o2 with methods := ["GET", "OPTIONS", "POST"] } else o2
  if o3.maxAge ≤ 0 then { o3 with maxAge := 600 * second } else o3

/-- The request data the evaluator reads: the method and the two header
values it fetches (Go `Header.Get` returns `""` for an absent header, so an
absent `Origin` is the empty string). -/
structure Request where
  method : String
  origin : String
  requestHeaders : String
deriving DecidableEq, Repr

/-- The response-header map, as an association list with Go-map semantics
(each key bound at most once; `setHeader` overwrites or appends). -/
abbrev Headers := List (String × String)

def setHeader : Headers → String → String → Headers
  | [], k, v => [(k, v)]
  | (k0, v0) :: rest, k, v =>
    if k0 = k then (k, v) :: rest else (k0, v0) :: setHeader rest k v

def getHeader : Headers → String → Option String
  | [], _ => none
  | (k0, v0) :: rest, k => if k0 = k then some v0 else getHeader rest k

/-- Everything the evaluator can do to the request: terminate it with
`http.Error` (status and body), return without scheduling anything (the
"skip non-CORS requests" branch), schedule headers and fall through to the
rest of the chain, or schedule headers and write a status (the `OPTIONS`
preflight branch). -/
inductive CorsResult where
  | reject (status : Nat) (body : String)
  | skip
  | pass (headers : Headers)
  | preflight (headers : Headers) (status : Nat)
deriving DecidableEq, Repr

/-- Modelled from the spec: the host framework invokes the downstream
handler only when the middleware returns without having written a response
(flamego stops the chain once a response is written; spec sections 4.1
step 4 and 6, "a way to write a response status code and terminate the
middleware chain early"). -/
def runsHandler : CorsResult → Bool
  | CorsResult.reject _ _ => false
  | CorsResult.skip => true
  | CorsResult.pass _ => true
  | CorsResult.preflight _ _ => false

/-- A result in which the origin gate was passed and headers scheduled. -/
def isAccepted : CorsResult → Bool
  | CorsResult.pass _ => true
  | CorsResult.preflight _ _ => true
  | _ => false

/-- The headers a result schedules via the pre-flush hook. -/
def scheduledHeaders : CorsResult → Headers
  | CorsResult.pass hs => hs
  | CorsResult.preflight hs _ => hs
  | _ => []

/-- One iteration's test of the domain loop (cors.go lines 369-371). -/
def domainMatch (opt : Options) (host d : String) : Bool :=
  host == d || (opt.allowSubdomain && goHasSuffix host ("." ++ d)) || d == "!*"

/-- The `for _, d := range opt.AllowDomain` loop (cors.go lines 368-375):
first successful entry stops the scan. -/
def matchLoop (opt : Options) (host : String) : List String → Bool
  | [] => false
  | d :: ds => if domainMatch opt host d then true else matchLoop opt host ds

/-- The header map literal built at the top of the handler (cors.go lines
347-351). -/
def baseHeaders (opt : Options) (req : Request) : Headers :=
  [("Access-Control-Allow-Methods", goJoin opt.methods ","),
   ("Access-Control-Allow-Headers", req.requestHeaders),
   ("Access-Control-Max-Age", formatSecondsF0 opt.maxAge)]

/-- The tail of the handler (cors.go lines 388-396): schedule the headers,
then write 200 for an `OPTIONS` request. -/
def finishReq (req : Request) (hs : Headers) : CorsResult :=
  if req.method = "OPTIONS" then CorsResult.preflight hs 200 else CorsResult.pass hs

/-- The request evaluator returned by `CORS` (cors.go lines 346-397),
applied to an already-prepared `Options`.  Go indexes `opt.AllowDomain[0]`,
which panics on an empty list; `prepareOptions` guarantees non-emptiness,
and `headD` is used here, so the value of this function on an empty
`allowDomain` models nothing.  The error bodies carry the trailing newline
that `http.Error`'s `Fprintln` appends. -/
def corsEval (opt : Options) (req : Request) : CorsResult :=
  if opt.allowDomain.headD "" = "*" then
    finishReq req (setHeader (baseHeaders opt req) "Access-Control-Allow-Origin" "*")
  else if req.origin = "" then CorsResult.skip
  else
    match urlParse req.origin with
    | Except.error e =>
      CorsResult.reject 400 ("Unable to parse CORS origin header: " ++ e ++ "\n")
    | Except.ok u =>
      if matchLoop opt u.host opt.allowDomain then
        finishReq req (setHeader (setHeader (setHeader (baseHeaders opt req)
          "Access-Control-Allow-Origin"
          (urlString (if opt.scheme ≠ "*" then { u with scheme := opt.scheme } else u)))
          "Access-Control-Allow-Credentials" (formatBool opt.allowCredentials))
          "Vary" "Origin")
      else
        CorsResult.reject 400 ("CORS request from prohibited domain " ++ req.origin ++ "\n")

/-- `cors.CORS(options...)` applied to one request: prepare the options,
then evaluate. -/
def CORS (options : List Options) (req : Request) : CorsResult :=
  corsEval (prepareOptions options) req

/-! ### Helper lemmas -/

theorem strDataAppend (s t : String) : (s ++ t).data = s.data ++ t.data := by
  cases s
  cases t
  rfl

theorem strMkData (s : String) : String.mk s.data = s := by
  cases s
  rfl

theorem splitCh_ne_nil (sep : Char) (l : List Char) : splitCh sep l ≠ [] := by
  cases l with
  | nil => simp [splitCh]
  | cons c cs =>
    simp only [splitCh]
    cases h : splitCh sep cs with
    | nil => simp
    | cons g gs =>
      by_cases hc : c = sep <;> simp [hc]

theorem splitCh_no_sep (sep : Char) (cs : List Char) (h : ∀ c ∈ cs, c ≠ sep) :
    splitCh sep cs = [cs] := by
  induction cs with
  | nil => rfl
  | cons c cs ih =>
    have hc : c ≠ sep := h c (List.mem_cons_self c cs)
    have ih2 := ih (fun x hx => h x (List.mem_cons_of_mem c hx))
    simp only [splitCh, ih2]
    simp [hc]

theorem splitCh_append (sep : Char) (a b : List Char) (h : ∀ c ∈ a, c ≠ sep) :
    splitCh sep (a ++ sep :: b) = a :: splitCh sep b := by
  induction a with
  | nil =>
    simp only [List.nil_append, splitCh]
    cases hb : splitCh sep b with
    | nil => exact absurd hb (splitCh_ne_nil sep b)
    | cons g gs => simp
  | cons c a ih =>
    have hc : c ≠ sep := h c (List.mem_cons_self c a)
    have ih2 := ih (fun x hx => h x (List.mem_cons_of_mem c hx))
    simp only [List.cons_append, splitCh, ih2]
    simp [hc, ih2]

theorem goSplitComma_goJoin (l : List String) (hne : l ≠ [])
    (hc : ∀ m ∈ l, ∀ c ∈ m.data, c ≠ ',') :
    goSplitComma (goJoin l ",") = l := by
  induction l with
  | nil => exact absurd rfl hne
  | cons s rest ih =>
    cases rest with
    | nil =>
      show (splitCh ',' s.data).map String.mk = [s]
      rw [splitCh_no_sep ',' s.data (hc s (List.mem_cons_self s []))]
      simp [strMkData]
    | cons s2 rest2 =>
      have hdata : (goJoin (s :: s2 :: rest2) ",").data
          = s.data ++ ',' :: (goJoin (s2 :: rest2) ",").data := by
        show (s ++ "," ++ goJoin (s2 :: rest2) ",").data = _
        rw [strDataAppend, strDataAppend, List.append_assoc]
        rfl
      show (splitCh ',' (goJoin (s :: s2 :: rest2) ",").data).map String.mk = _
      rw [hdata, splitCh_append ',' s.data _ (hc s (List.mem_cons_self s _))]
      have ih2 := ih (by simp) (fun m hm => hc m (List.mem_cons_of_mem s hm))
      simp only [List.map_cons, strMkData]
      rw [show (splitCh ',' (goJoin (s2 :: rest2) ",").data).map String.mk
          = goSplitComma (goJoin (s2 :: rest2) ",") from rfl, ih2]

theorem isAccepted_finishReq (req : Request) (hs : Headers) :
    isAccepted (finishReq req hs) = true := by
  unfold finishReq
  split <;> rfl

theorem finishReq_headers (req : Request) (hs hs' : Headers)
    (h : finishReq req hs = CorsResult.pass hs' ∨
      ∃ s, finishReq req hs = CorsResult.preflight hs' s) :
    hs = hs' := by
  unfold finishReq at h
  by_cases hm : req.method = "OPTIONS" <;> rcases h with h | ⟨s, h⟩ <;> simp [hm] at h <;>
    first
    | exact h
    | exact h.1

theorem finishReq_options (req : Request) (hs hs' : Headers) (s : Nat)
    (h : finishReq req hs = CorsResult.preflight hs' s) :
    req.method = "OPTIONS" ∧ s = 200 := by
  unfold finishReq at h
  by_cases hm : req.method = "OPTIONS" <;> simp [hm] at h
  · exact ⟨hm, h.2.symm⟩

theorem finishReq_pass (req : Request) (hs hs' : Headers)
    (h : finishReq req hs = CorsResult.pass hs') :
    req.method ≠ "OPTIONS" := by
  unfold finishReq at h
  by_cases hm : req.method = "OPTIONS" <;> simp [hm] at h
  · exact hm

theorem matchLoop_iff (opt : Options) (host : String) (l : List String) :
    matchLoop opt host l = true ↔ ∃ d ∈ l, domainMatch opt host d = true := by
  induction l with
  | nil => simp [matchLoop]
  | cons d ds ih =>
    by_cases h : domainMatch opt host d = true <;> simp [matchLoop, h, ih]

theorem domainMatch_iff (opt : Options) (host d : String) :
    domainMatch opt host d = true ↔
      host = d ∨ (opt.allowSubdomain = true ∧ goHasSuffix host ("." ++ d) = true) ∨ d = "!*" := by
  simp [domainMatch, Bool.or_eq_true, Bool.and_eq_true, beq_iff_eq, or_assoc]

theorem corsEval_nonwild (opt : Options) (req : Request)
    (hw : opt.allowDomain.headD "" ≠ "*") (ho : req.origin ≠ "") :
    corsEval opt req =
      match urlParse req.origin with
      | Except.error e =>
        CorsResult.reject 400 ("Unable to parse CORS origin header: " ++ e ++ "\n")
      | Except.ok u =>
        if matchLoop opt u.host opt.allowDomain then
          finishReq req (setHeader (setHeader (setHeader (baseHeaders opt req)
            "Access-Control-Allow-Origin"
            (urlString (if opt.scheme ≠ "*" then { u with scheme := opt.scheme } else u)))
            "Access-Control-Allow-Credentials" (formatBool opt.allowCredentials))
            "Vary" "Origin")
        else
          CorsResult.reject 400 ("CORS request from prohibited domain " ++ req.origin ++ "\n") := by
  unfold corsEval
  rw [if_neg hw, if_neg ho]

theorem accepted_iff (opt : Options) (req : Request) (u : URL)
    (hw : opt.allowDomain.headD "" ≠ "*") (ho : req.origin ≠ "")
    (hp : urlParse req.origin = Except.ok u) :
    isAccepted (corsEval opt req) = true ↔ matchLoop opt u.host opt.allowDomain = true := by
  rw [corsEval_nonwild opt req hw ho, hp]
  by_cases hm : matchLoop opt u.host opt.allowDomain = true
  · simp [hm, isAccepted_finishReq]
  · simp [hm, isAccepted]

theorem getHeader_setHeader_ne (hs : Headers) (k k' v : String) (hkk : k ≠ k') :
    getHeader (setHeader hs k' v) k = getHeader hs k := by
  induction hs with
  | nil => simp [setHeader, getHeader, Ne.symm hkk]
  | cons p rest ih =>
    obtain ⟨k0, v0⟩ := p
    by_cases h0 : k0 = k'
    · subst h0
      simp [setHeader, getHeader, Ne.symm hkk]
    · by_cases h1 : k0 = k <;> simp [setHeader, getHeader, h0, h1, ih, hkk]

theorem getHeader_setHeader_self (hs : Headers) (k v : String) :
    getHeader (setHeader hs k v) k = some v := by
  induction hs with
  | nil => simp [setHeader, getHeader]
  | cons p rest ih =>
    obtain ⟨k0, v0⟩ := p
    by_cases h0 : k0 = k <;> simp [setHeader, getHeader, h0, ih]

theorem getHeader_acam_base (opt : Options) (req : Request) :
    getHeader (baseHeaders opt req) "Access-Control-Allow-Methods"
      = some (goJoin opt.methods ",") := by
  simp [baseHeaders, getHeader]

theorem corsEval_result_forms (opt : Options) (req : Request) (hs : Headers)
    (h : corsEval opt req = CorsResult.pass hs ∨
      ∃ s, corsEval opt req = CorsResult.preflight hs s) :
    hs = setHeader (baseHeaders opt req) "Access-Control-Allow-Origin" "*"
    ∨ ∃ u, urlParse req.origin = Except.ok u ∧
        hs = setHeader (setHeader (setHeader (baseHeaders opt req)
          "Access-Control-Allow-Origin"
          (urlString (if opt.scheme ≠ "*" then { u with scheme := opt.scheme } else u)))
          "Access-Control-Allow-Credentials" (formatBool opt.allowCredentials))
          "Vary" "Origin" := by
  by_cases hw : opt.allowDomain.headD "" = "*"
  · left
    unfold corsEval at h
    rw [if_pos hw] at h
    exact (finishReq_headers _ _ _ h).symm
  · by_cases ho : req.origin = ""
    · unfold corsEval at h
      rw [if_neg hw, if_pos ho] at h
      rcases h with h | ⟨s, h⟩ <;> simp at h
    · rw [corsEval_nonwild opt req hw ho] at h
      cases hpe : urlParse req.origin with
      | error e =>
        rw [hpe] at h
        rcases h with h | ⟨s, h⟩ <;> simp at h
      | ok u =>
        simp only [hpe] at h
        by_cases hm : matchLoop opt u.host opt.allowDomain = true
        · rw [if_pos hm] at h
          right
          exact ⟨u, rfl, (finishReq_headers _ _ _ h).symm⟩
        · rw [if_neg hm] at h
          rcases h with h | ⟨s, h⟩ <;> simp at h

theorem acam_of_result (opt : Options) (req : Request) (hs : Headers)
    (h : corsEval opt req = CorsResult.pass hs ∨
      ∃ s, corsEval opt req = CorsResult.preflight hs s) :
    getHeader hs "Access-Control-Allow-Methods" = some (goJoin opt.methods ",") := by
  rcases corsEval_result_forms opt req hs h with hform | ⟨u, _, hform⟩ <;> subst hform
  · rw [getHeader_setHeader_ne _ _ _ _ (by decide)]
    exact getHeader_acam_base opt req
  · rw [getHeader_setHeader_ne _ _ _ _ (by decide),
      getHeader_setHeader_ne _ _ _ _ (by decide),
      getHeader_setHeader_ne _ _ _ _ (by decide)]
    exact getHeader_acam_base opt req

/-! ### The claims -/

/-- C1: for every non-wildcard policy and every request carrying a
well-formed Origin header, the origin is accepted iff some entry `d` of
`allowedDomains` satisfies: the origin's host equals `d`, or
`allowSubdomain` is true and the host ends with `"." ++ d`, or `d` is the
sentinel `"!*"`; and the first successful entry ends the scan. -/
theorem C1_first_match_acceptance (opt : Options) (req : Request) (u : URL)
    (hne : opt.allowDomain ≠ [])
    (hw : opt.allowDomain.headD "" ≠ "*")
    (ho : req.origin ≠ "")
    (hp : urlParse req.origin = Except.ok u) :
    (isAccepted (corsEval opt req) = true ↔
      ∃ d ∈ opt.allowDomain, u.host = d ∨
        (opt.allowSubdomain = true ∧ goHasSuffix u.host ("." ++ d) = true) ∨ d = "!*")
    ∧ (∀ d ds, (u.host = d ∨
        (opt.allowSubdomain = true ∧ goHasSuffix u.host ("." ++ d) = true) ∨ d = "!*") →
        matchLoop opt u.host (d :: ds) = true) := by
  constructor
  · rw [accepted_iff opt req u hw ho hp, matchLoop_iff]
    constructor
    · rintro ⟨d, hd, hdm⟩
      exact ⟨d, hd, (domainMatch_iff opt u.host d).mp hdm⟩
    · rintro ⟨d, hd, hdm⟩
      exact ⟨d, hd, (domainMatch_iff opt u.host d).mpr hdm⟩
  · intro d ds hd
    simp [matchLoop, (domainMatch_iff opt u.host d).mpr hd]

theorem C1_witness :
    (["example.com"] : List String) ≠ []
    ∧ (["example.com"].headD "" ≠ "*")
    ∧ ("https://example.com" : String) ≠ ""
    ∧ urlParse "https://example.com" = Except.ok ⟨"https", "", none, "example.com", "", "", false, false, "", "", ""⟩
    ∧ isAccepted (corsEval
        ⟨"https", ["example.com"], false, ["GET", "OPTIONS", "POST"], 600 * second, true⟩
        ⟨"OPTIONS", "https://example.com", ""⟩) = true := by
  refine ⟨by decide, by decide, by decide, rfl, ?_⟩
  exact (C1_first_match_acceptance
      ⟨"https", ["example.com"], false, ["GET", "OPTIONS", "POST"], 600 * second, true⟩
      ⟨"OPTIONS", "https://example.com", ""⟩
      ⟨"https", "", none, "example.com", "", "", false, false, "", "", ""⟩
      (by decide) (by decide) (by decide) rfl).1.mpr
    ⟨"example.com", by decide, Or.inl rfl⟩

/-- C2: for every policy whose first allowedDomains entry is "*", the
evaluator schedules Access-Control-Allow-Origin "*" and no
Access-Control-Allow-Credentials header, for every method, and the result
does not depend on the Origin header at all. -/
theorem C2_wildcard (opt : Options) (req : Request)
    (hw : opt.allowDomain.headD "" = "*") :
    (∃ hs, (corsEval opt req = CorsResult.pass hs ∨
        corsEval opt req = CorsResult.preflight hs 200)
      ∧ getHeader hs "Access-Control-Allow-Origin" = some "*"
      ∧ getHeader hs "Access-Control-Allow-Credentials" = none)
    ∧ (∀ o : String, corsEval opt req = corsEval opt ⟨req.method, o, req.requestHeaders⟩) := by
  constructor
  · refine ⟨setHeader (baseHeaders opt req) "Access-Control-Allow-Origin" "*", ?_, ?_, ?_⟩
    · unfold corsEval
      rw [if_pos hw]
      unfold finishReq
      by_cases hm : req.method = "OPTIONS" <;> simp [hm]
    · exact getHeader_setHeader_self _ _ _
    · rw [getHeader_setHeader_ne _ _ _ _ (by decide)]
      simp [baseHeaders, getHeader]
  · intro o
    obtain ⟨m, og, rh⟩ := req
    unfold corsEval
    rw [if_pos hw, if_pos hw]
    rfl

theorem C2_witness :
    ((["*"] : List String).headD "" = "*")
    ∧ corsEval ⟨"http", ["*"], false, ["GET", "OPTIONS", "POST"], 600 * second, false⟩
        ⟨"GET", "http://evil.example", "X-Header"⟩
      = corsEval ⟨"http", ["*"], false, ["GET", "OPTIONS", "POST"], 600 * second, false⟩
        ⟨"GET", "", "X-Header"⟩ :=
  ⟨rfl, (C2_wildcard ⟨"http", ["*"], false, ["GET", "OPTIONS", "POST"], 600 * second, false⟩
    ⟨"GET", "http://evil.example", "X-Header"⟩ rfl).2 ""⟩

/-- C5 as stated is false: the evaluator matches on `u.Host`, which keeps
an explicit port, so `https://example.com:8080` does not match the entry
`"example.com"` (it is rejected with 400) even though the port-free origin
is accepted. -/
theorem C5_counterexample :
    corsEval ⟨"https", ["example.com"], false, ["GET", "OPTIONS", "POST"], 600 * second, true⟩
        ⟨"OPTIONS", "https://example.com:8080", ""⟩
      = CorsResult.reject 400 "CORS request from prohibited domain https://example.com:8080\n"
    ∧ isAccepted (corsEval
        ⟨"https", ["example.com"], false, ["GET", "OPTIONS", "POST"], 600 * second, true⟩
        ⟨"OPTIONS", "https://example.com", ""⟩) = true :=
  ⟨rfl, rfl⟩

/-- C5 amended: domain matching is performed on the full host including
any explicit port, so an origin whose authority carries a port matches
exactly the entries equal to `hostname ++ ":" ++ port` (with subdomain
matching off and no `"!*"` sentinel configured). -/
theorem C5_amended_host_includes_port (opt : Options) (req : Request) (u : URL) (hn pt : String)
    (hne : opt.allowDomain ≠ [])
    (hw : opt.allowDomain.headD "" ≠ "*")
    (ho : req.origin ≠ "")
    (hp : urlParse req.origin = Except.ok u)
    (hhost : u.host = hn ++ ":" ++ pt)
    (hsub : opt.allowSubdomain = false)
    (hsent : "!*" ∉ opt.allowDomain) :
    isAccepted (corsEval opt req) = true ↔ (hn ++ ":" ++ pt) ∈ opt.allowDomain := by
  rw [accepted_iff opt req u hw ho hp, matchLoop_iff, ← hhost]
  constructor
  · rintro ⟨d, hd, hdm⟩
    rcases (domainMatch_iff opt u.host d).mp hdm with h | ⟨hs2, _⟩ | h
    · rw [h]
      exact hd
    · rw [hsub] at hs2
      cases hs2
    · rw [h] at hd
      exact absurd hd hsent
  · intro hmem
    exact ⟨u.host, hmem, (domainMatch_iff opt u.host u.host).mpr (Or.inl rfl)⟩

theorem C5_amended_witness :
    (["example.com:8080"] : List String) ≠ []
    ∧ (["example.com:8080"].headD "" ≠ "*")
    ∧ ("https://example.com:8080" : String) ≠ ""
    ∧ urlParse "https://example.com:8080"
        = Except.ok ⟨"https", "", none, "example.com:8080", "", "", false, false, "", "", ""⟩
    ∧ ("example.com:8080" : String) = "example.com" ++ ":" ++ "8080"
    ∧ ("!*" : String) ∉ (["example.com:8080"] : List String)
    ∧ isAccepted (corsEval
        ⟨"https", ["example.com:8080"], false, ["GET", "OPTIONS", "POST"], 600 * second, true⟩
        ⟨"OPTIONS", "https://example.com:8080", ""⟩) = true := by
  refine ⟨by decide, by decide, by decide, rfl, by decide, by decide, ?_⟩
  exact (C5_amended_host_includes_port
      ⟨"https", ["example.com:8080"], false, ["GET", "OPTIONS", "POST"], 600 * second, true⟩
      ⟨"OPTIONS", "https://example.com:8080", ""⟩
      ⟨"https", "", none, "example.com:8080", "", "", false, false, "", "", ""⟩
      "example.com" "8080"
      (by decide) (by decide) (by decide) rfl (by decide) rfl (by decide)).mpr
    (by decide)

theorem corsEval_shape (opt : Options) (req : Request) :
    (∃ hs, corsEval opt req = finishReq req hs)
    ∨ corsEval opt req = CorsResult.skip
    ∨ ∃ b, corsEval opt req = CorsResult.reject 400 b := by
  by_cases hw : opt.allowDomain.headD "" = "*"
  · left
    unfold corsEval
    rw [if_pos hw]
    exact ⟨_, rfl⟩
  · by_cases ho : req.origin = ""
    · right
      left
      unfold corsEval
      rw [if_neg hw, if_pos ho]
    · rw [corsEval_nonwild opt req hw ho]
      cases hpe : urlParse req.origin with
      | error e =>
        simp only [hpe]
        right
        right
        exact ⟨_, rfl⟩
      | ok u =>
        simp only [hpe]
        by_cases hm : matchLoop opt u.host opt.allowDomain = true
        · rw [if_pos hm]
          left
          exact ⟨_, rfl⟩
        · rw [if_neg hm]
          right
          right
          exact ⟨_, rfl⟩

theorem scheduledHeaders_finishReq (req : Request) (hs : Headers) :
    scheduledHeaders (finishReq req hs) = hs := by
  unfold finishReq
  split <;> rfl

/-- C6: whenever the evaluator lets a request through its origin gate, an
OPTIONS request yields the preflight result (status 200 written, downstream
handler not invoked), and any other method yields the pass-through result
(downstream handler still executes). -/
theorem C6_preflight_short_circuit (opt : Options) (req : Request) :
    (∀ hs s, corsEval opt req = CorsResult.preflight hs s →
      req.method = "OPTIONS" ∧ s = 200 ∧ runsHandler (CorsResult.preflight hs s) = false)
    ∧ (∀ hs, corsEval opt req = CorsResult.pass hs →
      req.method ≠ "OPTIONS" ∧ runsHandler (CorsResult.pass hs) = true)
    ∧ (req.method = "OPTIONS" → isAccepted (corsEval opt req) = true →
      ∃ hs, corsEval opt req = CorsResult.preflight hs 200) := by
  refine ⟨?_, ?_, ?_⟩
  · intro hs s h
    rcases corsEval_shape opt req with ⟨hs0, hf⟩ | hsk | ⟨b, hr⟩
    · rw [hf] at h
      obtain ⟨hm, hs200⟩ := finishReq_options req hs0 hs s h
      exact ⟨hm, hs200, rfl⟩
    · rw [hsk] at h
      simp at h
    · rw [hr] at h
      simp at h
  · intro hs h
    rcases corsEval_shape opt req with ⟨hs0, hf⟩ | hsk | ⟨b, hr⟩
    · rw [hf] at h
      exact ⟨finishReq_pass req hs0 hs h, rfl⟩
    · rw [hsk] at h
      simp at h
    · rw [hr] at h
      simp at h
  · intro hm hacc
    rcases corsEval_shape opt req with ⟨hs0, hf⟩ | hsk | ⟨b, hr⟩
    · refine ⟨hs0, ?_⟩
      rw [hf]
      unfold finishReq
      rw [if_pos hm]
    · rw [hsk] at hacc
      simp [isAccepted] at hacc
    · rw [hr] at hacc
      simp [isAccepted] at hacc

/-- C7: under a non-wildcard policy, a request without an Origin header is
skipped entirely: no CORS headers are scheduled, no error is produced, and
the downstream handler runs (also for OPTIONS requests). -/
theorem C7_no_origin_skip (opt : Options) (req : Request)
    (hne : opt.allowDomain ≠ [])
    (hw : opt.allowDomain.headD "" ≠ "*")
    (ho : req.origin = "") :
    corsEval opt req = CorsResult.skip
    ∧ scheduledHeaders (corsEval opt req) = []
    ∧ runsHandler (corsEval opt req) = true := by
  have h : corsEval opt req = CorsResult.skip := by
    unfold corsEval
    rw [if_neg hw, if_pos ho]
  refine ⟨h, ?_, ?_⟩ <;> rw [h] <;> rfl

theorem C7_witness :
    (["example.com"] : List String) ≠ []
    ∧ (["example.com"].headD "" ≠ "*")
    ∧ ("" : String) = ""
    ∧ corsEval ⟨"https", ["example.com"], false, ["GET", "OPTIONS", "POST"], 600 * second, true⟩
        ⟨"OPTIONS", "", ""⟩ = CorsResult.skip := by
  refine ⟨by decide, by decide, rfl, ?_⟩
  exact (C7_no_origin_skip
    ⟨"https", ["example.com"], false, ["GET", "OPTIONS", "POST"], 600 * second, true⟩
    ⟨"OPTIONS", "", ""⟩ (by decide) (by decide) rfl).1

/-- C8: construction replaces each unset/empty field by its default
(scheme "http", allowedDomains ["*"], methods ["GET","OPTIONS","POST"],
maxAge 600 s) and keeps every explicitly set field; allowSubdomain and
allowCredentials stay at their zero value false.  The spec constrains
maxAge to be a non-negative duration, hence the hypothesis. -/
theorem C8_prepare_defaults (opt : Options) (hma : 0 ≤ opt.maxAge) :
    (prepareOptions [opt]).scheme = (if opt.scheme = "" then "http" else opt.scheme)
    ∧ (prepareOptions [opt]).allowDomain
        = (if opt.allowDomain = [] then ["*"] else opt.allowDomain)
    ∧ (prepareOptions [opt]).methods
        = (if opt.methods = [] then ["GET", "OPTIONS", "POST"] else opt.methods)
    ∧ (prepareOptions [opt]).maxAge = (if opt.maxAge = 0 then 600 * second else opt.maxAge)
    ∧ (prepareOptions [opt]).allowSubdomain = opt.allowSubdomain
    ∧ (prepareOptions [opt]).allowCredentials = opt.allowCredentials
    ∧ prepareOptions [] = ⟨"http", ["*"], false, ["GET", "OPTIONS", "POST"], 600 * second, false⟩ := by
  obtain ⟨s, ad, asub, ms, ma, ac⟩ := opt
  refine ⟨?_, ?_, ?_, ?_, ?_, ?_, rfl⟩ <;>
    simp only [prepareOptions, List.headD] <;>
    split_ifs <;>
    simp_all <;>
    omega

theorem C8_witness :
    (0 : Int) ≤ (0 : Int)
    ∧ (prepareOptions [⟨"", [], false, [], 0, false⟩]).scheme = "http"
    ∧ (prepareOptions [⟨"", [], false, [], 0, false⟩]).maxAge = 600 * second := by
  have h := C8_prepare_defaults ⟨"", [], false, [], 0, false⟩ (by decide)
  refine ⟨by decide, ?_, ?_⟩
  · rw [h.1]
    rfl
  · rw [h.2.2.2.1]
    rfl

/-- C9 as stated is false: a configured method containing a comma (e.g.
the single entry "GET,POST") joins to "GET,POST", which splits back into
["GET", "POST"], not the configured sequence. -/
theorem C9_counterexample :
    getHeader (scheduledHeaders (corsEval
        ⟨"http", ["*"], false, ["GET,POST"], 600 * second, false⟩
        ⟨"GET", "", ""⟩)) "Access-Control-Allow-Methods" = some "GET,POST"
    ∧ goSplitComma "GET,POST" = ["GET", "POST"]
    ∧ (["GET", "POST"] : List String) ≠ ["GET,POST"] :=
  ⟨rfl, rfl, by decide⟩

/-- C9 amended: for every configured Methods sequence that is non-empty
and whose entries contain no comma (true of all HTTP method names),
splitting the scheduled Access-Control-Allow-Methods header value on
commas yields exactly the configured sequence, order preserved. -/
theorem C9_amended_roundtrip (opt : Options) (req : Request) (hs : Headers)
    (hnil : opt.methods ≠ [])
    (hcomma : ∀ m ∈ opt.methods, ∀ c ∈ m.data, c ≠ ',')
    (hres : corsEval opt req = CorsResult.pass hs ∨
      ∃ s, corsEval opt req = CorsResult.preflight hs s) :
    ∃ v, getHeader hs "Access-Control-Allow-Methods" = some v
      ∧ goSplitComma v = opt.methods :=
  ⟨goJoin opt.methods ",", acam_of_result opt req hs hres,
    goSplitComma_goJoin opt.methods hnil hcomma⟩

theorem C9_witness :
    (["GET", "OPTIONS", "POST"] : List String) ≠ []
    ∧ (∀ m ∈ (["GET", "OPTIONS", "POST"] : List String), ∀ c ∈ m.data, c ≠ ',')
    ∧ corsEval ⟨"http", ["*"], false, ["GET", "OPTIONS", "POST"], 600 * second, false⟩
        ⟨"GET", "", ""⟩
      = CorsResult.pass
          [("Access-Control-Allow-Methods", "GET,OPTIONS,POST"),
           ("Access-Control-Allow-Headers", ""),
           ("Access-Control-Max-Age", "600"),
           ("Access-Control-Allow-Origin", "*")]
    ∧ ∃ v, getHeader
          [("Access-Control-Allow-Methods", "GET,OPTIONS,POST"),
           ("Access-Control-Allow-Headers", ""),
           ("Access-Control-Max-Age", "600"),
           ("Access-Control-Allow-Origin", "*")] "Access-Control-Allow-Methods" = some v
        ∧ goSplitComma v = ["GET", "OPTIONS", "POST"] := by
  have h3 : corsEval ⟨"http", ["*"], false, ["GET", "OPTIONS", "POST"], 600 * second, false⟩
      ⟨"GET", "", ""⟩
      = CorsResult.pass
          [("Access-Control-Allow-Methods", "GET,OPTIONS,POST"),
           ("Access-Control-Allow-Headers", ""),
           ("Access-Control-Max-Age", "600"),
           ("Access-Control-Allow-Origin", "*")] := by decide
  refine ⟨by decide, by decide, h3, ?_⟩
  exact C9_amended_roundtrip
    ⟨"http", ["*"], false, ["GET", "OPTIONS", "POST"], 600 * second, false⟩
    ⟨"GET", "", ""⟩
    [("Access-Control-Allow-Methods", "GET,OPTIONS,POST"),
     ("Access-Control-Allow-Headers", ""),
     ("Access-Control-Max-Age", "600"),
     ("Access-Control-Allow-Origin", "*")]
    (by decide) (by decide) (Or.inl h3)

/-- C10: a policy whose allowedDomains begins with "*" but carries further
entries behaves exactly as ["*"]: only the first element decides, the
credential-less wildcard path is taken for every request, and construction
keeps the list as given (the singleton restriction is not enforced). -/
theorem C10_wildcard_first_ignores_rest (opt : Options) (rest : List String) (req : Request) :
    corsEval { opt with allowDomain := "*" :: rest } req
      = corsEval { opt with allowDomain := ["*"] } req
    ∧ getHeader (scheduledHeaders (corsEval { opt with allowDomain := "*" :: rest } req))
        "Access-Control-Allow-Origin" = some "*"
    ∧ getHeader (scheduledHeaders (corsEval { opt with allowDomain := "*" :: rest } req))
        "Access-Control-Allow-Credentials" = none
    ∧ isAccepted (corsEval { opt with allowDomain := "*" :: rest } req) = true
    ∧ (prepareOptions [{ opt with allowDomain := "*" :: rest }]).allowDomain = "*" :: rest := by
  have hw : ({ opt with allowDomain := "*" :: rest } : Options).allowDomain.headD "" = "*" := rfl
  have he : corsEval { opt with allowDomain := "*" :: rest } req
      = finishReq req (setHeader (baseHeaders { opt with allowDomain := "*" :: rest } req)
          "Access-Control-Allow-Origin" "*") := by
    unfold corsEval
    rw [if_pos hw]
  refine ⟨?_, ?_, ?_, ?_, ?_⟩
  · rw [he]
    unfold corsEval
    rw [if_pos (show ({ opt with allowDomain := ["*"] } : Options).allowDomain.headD "" = "*" from rfl)]
    rfl
  · rw [he, scheduledHeaders_finishReq]
    exact getHeader_setHeader_self _ _ _
  · rw [he, scheduledHeaders_finishReq, getHeader_setHeader_ne _ _ _ _ (by decide)]
    simp [baseHeaders, getHeader]
  · rw [he]
    exact isAccepted_finishReq _ _
  · obtain ⟨s, ad, asub, ms, ma, ac⟩ := opt
    by_cases h1 : s = "" <;> by_cases h3 : ms = [] <;> by_cases h4 : ma ≤ 0 <;>
      simp [prepareOptions, h1, h3, h4]

end FlamegoCors
